import Mathlib

/-!
Shallow embedding of the mogi process-execution engine (src/mogi.ts).

Modelling conventions:
- JS attribute objects (`Record<string, any>`) become association lists
  `List (String × Val)`; object spread `{...a, ...b}` becomes `mergeAttrs`.
- The external reasoning capability (AIService.prompt / promptThinking) is an
  oracle `Env.oracle : MogiNode → MogiAgentState → CallResult`: either the call
  rejects (`throws`, caught by MogiNode.execute) or yields a reply.  `JSON.parse`
  is the environment function `Env.jsonParse` (partial: `none` = SyntaxError).
- Mutable JS objects become explicit state passing.  The two branch processes of
  a MogiConditionalProcess are stored inside the CondProc record and the
  per-agent branch-state map stores a `BranchTag` standing for the JS object
  reference, so all agents bound to the same branch share that branch's cursor,
  exactly as the aliased objects do in the source.
- A JS step that throws an uncaught exception is modelled as `none`
  (`executeStep : ... → Option (MogiSimulation × Bool)`).
- `MogiAgentHistory.timestamp` (wall clock `new Date()`) and the never-assigned
  optional `processId` field are omitted: no claim mentions them and the clock
  is external real time.  Simulation/process config fields (`delayMs`,
  `maxConcurrency`, `retries`, `timeoutMs`, `printLogs`) only control pacing and
  logging and are never consulted by the state machine, so they are omitted too.
- `executeConditionalStep` additionally returns the list of agent ids for which
  the branch predicate `condition(agent)` was called during the step (the ghost
  field `evaluated`); it is a pure observation log and does not influence the
  computed state.
-/

/-- JS `AIPromptResponse = string | string[]` (src/ai-interface). -/
inductive AIPromptResponse where
  | str (s : String)
  | arr (l : List String)
deriving DecidableEq, Repr

/-- JSON-like attribute values stored in an agent's `attributes` record.
`vUndef` models the JS `undefined` value (e.g. a missing reasoning string),
`vRaw` models storing a raw capability reply under the `_raw` key. -/
inductive Val where
  | vInt (n : Int)
  | vStr (s : String)
  | vBool (b : Bool)
  | vUndef
  | vRaw (r : AIPromptResponse)
deriving DecidableEq, Repr

/-- An agent's `attributes` object: string keys to values, first match wins. -/
abbrev AttrMap := List (String × Val)

/-- Property lookup on a JS object (association list, first matching key). -/
def lookupVal : AttrMap → String → Option Val
  | [], _ => none
  | (k, v) :: rest, key => if k = key then some v else lookupVal rest key

/-- JS object spread `{...a, ...b}`: keys of `a` keep their position but take
`b`'s value when overwritten; keys only in `b` are appended in order. -/
def mergeAttrs (a b : AttrMap) : AttrMap :=
  (a.map fun p => match lookupVal b p.1 with
    | some v => (p.1, v)
    | none => p) ++
  b.filter fun q => (lookupVal a q.1).isNone

/-- One entry of `MogiAgentHistory` (src/mogi.ts lines 15-21); see the header
for the omitted `timestamp` and `processId` fields. -/
structure MogiAgentHistory where
  nodeId : String
  changes : AttrMap
  reasoning : Option Val
deriving DecidableEq, Repr

/-- `MogiAgentState` (src/mogi.ts lines 9-13). -/
structure MogiAgentState where
  id : String
  attributes : AttrMap
  history : List MogiAgentHistory
deriving DecidableEq, Repr

/-- `MogiNode` with its `MogiNodeConfig` (src/mogi.ts lines 43-49, 273-274);
the AI service reference is its identity (a number), the optional schema only
shapes the prompt and is folded into the oracle. -/
structure MogiNode where
  id : String
  aiService : Nat
  instructions : String
  appendMessage : Option String
  useChainOfThought : Bool
deriving DecidableEq, Repr

/-- Outcome of one capability call: the returned promise either rejects
(network/provider error) or resolves with a reply. -/
inductive CallResult where
  | throws
  | replies (r : AIPromptResponse)
deriving DecidableEq, Repr

/-- Whether a capability call succeeded. -/
def CallResult.isReplies : CallResult → Bool
  | .throws => false
  | .replies _ => true

/-- The external world: the reasoning capability (per node and per agent, which
also absorbs per-call nondeterminism) and the `JSON.parse` partial function. -/
structure Env where
  oracle : MogiNode → MogiAgentState → CallResult
  jsonParse : String → Option AttrMap

/-- The `jsonStr` picked by `const [jsonStr, reasoning] = Array.isArray(response)
? response : [response]` (src/mogi.ts line 348); `none` = `undefined`. -/
def extractJsonStr : AIPromptResponse → Option String
  | .str s => some s
  | .arr [] => none
  | .arr (s :: _) => some s

/-- The `reasoning` picked by the same destructuring: element 1 of an array
reply, `undefined` otherwise. -/
def extractReasoning : AIPromptResponse → Val
  | .str _ => Val.vUndef
  | .arr [] => Val.vUndef
  | .arr [_] => Val.vUndef
  | .arr (_ :: s :: _) => Val.vStr s

/-- `parseAIReponse` (src/mogi.ts lines 346-355, source spelling kept): parse
the reply into a change set plus `_reasoning`; a reply whose JSON string is
missing or malformed yields the `{_error, _raw}` change set instead. -/
def parseAIReponse (jsonParse : String → Option AttrMap) (response : AIPromptResponse) : AttrMap :=
  match (extractJsonStr response).bind jsonParse with
  | some result => mergeAttrs result [("_reasoning", extractReasoning response)]
  | none => [("_error", Val.vStr "Invalid AI response"), ("_raw", Val.vRaw response)]

/-- `MogiNode.applyChanges` (src/mogi.ts lines 286-294): merge the change set
into the attributes and append one history entry. -/
def applyChanges (node : MogiNode) (agent : MogiAgentState) (changes : AttrMap) : MogiAgentState :=
  { agent with
    attributes := mergeAttrs agent.attributes changes
    history := agent.history ++
      [{ nodeId := node.id, changes := changes, reasoning := lookupVal changes "_reasoning" }] }

/-- `MogiNode.execute` (src/mogi.ts lines 276-284): run the capability call; a
rejection is caught and the agent is left untouched, otherwise the parsed
change set is applied. -/
def MogiNode.execute (env : Env) (node : MogiNode) (agent : MogiAgentState) : MogiAgentState :=
  match env.oracle node agent with
  | .throws => agent
  | .replies r => applyChanges node agent (parseAIReponse env.jsonParse r)

/-- `MogiProcess` (src/mogi.ts lines 222-229) as used for linear processes and
branch targets: the node list and the single shared cursor. -/
structure LinearProc where
  id : String
  nodes : List MogiNode
  currentNodeIndex : Nat
deriving Repr

/-- `MogiProcess.resetExecution` (src/mogi.ts lines 252-254). -/
def LinearProc.resetExecution (p : LinearProc) : LinearProc :=
  { p with currentNodeIndex := 0 }

/-- `MogiProcess.executeAgentStep` (src/mogi.ts lines 256-266): execute the node
at the process's own cursor for this one agent and advance that cursor, whatever
agent is passed; `false` once exhausted. -/
def executeAgentStep (env : Env) (p : LinearProc) (agent : MogiAgentState) :
    LinearProc × MogiAgentState × Bool :=
  if h : p.currentNodeIndex < p.nodes.length then
    ({ p with currentNodeIndex := p.currentNodeIndex + 1 },
     MogiNode.execute env (p.nodes.get ⟨p.currentNodeIndex, h⟩) agent, true)
  else
    (p, agent, false)

/-- Identity of a branch process object: the `trueBranch` or the `falseBranch`
field of the owning MogiConditionalProcess (JS stores the object reference). -/
inductive BranchTag where
  | onTrue
  | onFalse
deriving DecidableEq, Repr

/-- One entry of the `branchStates` map (src/mogi.ts lines 361-367). -/
structure BranchState where
  branch : BranchTag
  completed : Bool
deriving DecidableEq, Repr

/-- `MogiConditionalProcess` (src/mogi.ts lines 357-382): the base-class node
list and cursor, the predicate, the two branch sub-processes (held here so that
the sharing of each branch's cursor across agents is explicit), and the
per-agent branch-state map. -/
structure CondProc where
  id : String
  cond : MogiAgentState → Bool
  trueBranch : LinearProc
  falseBranch : LinearProc
  nodes : List MogiNode
  currentNodeIndex : Nat
  branchStates : List (String × BranchState)

/-- `Map.get` on `branchStates`. -/
def lookupBS : List (String × BranchState) → String → Option BranchState
  | [], _ => none
  | (k, v) :: rest, key => if k = key then some v else lookupBS rest key

/-- `Map.set` on `branchStates`: replace the entry if the key exists, else
append it. -/
def setBS : List (String × BranchState) → String → BranchState → List (String × BranchState)
  | [], key, v => [(key, v)]
  | (k, v') :: rest, key, v =>
    if k = key then (key, v) :: rest else (k, v') :: setBS rest key v

/-- Dereference a branch tag to the current state of that branch process. -/
def branchOf (cp : CondProc) : BranchTag → LinearProc
  | .onTrue => cp.trueBranch
  | .onFalse => cp.falseBranch

/-- Write back a mutated branch process through its reference. -/
def setBranchProc (cp : CondProc) : BranchTag → LinearProc → CondProc
  | .onTrue, lp => { cp with trueBranch := lp }
  | .onFalse, lp => { cp with falseBranch := lp }

/-- `MogiConditionalProcess.resetExecution` (src/mogi.ts lines 422-427). -/
def CondProc.resetExecution (cp : CondProc) : CondProc :=
  { cp with
    currentNodeIndex := 0
    branchStates := []
    trueBranch := cp.trueBranch.resetExecution
    falseBranch := cp.falseBranch.resetExecution }

/-- `MogiConditionalProcess.getActiveBranch` (src/mogi.ts lines 434-436),
returning the identity of the bound branch process (JS returns the object
reference or null). -/
def getActiveBranch (cp : CondProc) (agentId : String) : Option BranchTag :=
  (lookupBS cp.branchStates agentId).map (·.branch)

/-- Accumulator of the `for (const agent of agents)` loop in
`executeConditionalStep`: current process state, the post-loop state of each
agent in input order, the `hasMoreSteps` flag, and the ghost log of agents whose
predicate was called during the step. -/
structure CondAcc where
  cp : CondProc
  agentsOut : List MogiAgentState
  hasMore : Bool
  evaluated : List String

/-- One iteration of the agent loop of `executeConditionalStep` (src/mogi.ts
lines 390-411).  While the shared node prefix is unexhausted the agent executes
the node at the shared cursor.  Otherwise: on first entry the predicate is
evaluated once, the chosen branch's cursor is reset and the binding recorded
(with `completed := false`, so the branch is stepped at once, as the JS code
falls through to the freshly set entry); on later entries the bound branch is
stepped unless already completed. -/
def condStepAgent (env : Env) (acc : CondAcc) (agent : MogiAgentState) : CondAcc :=
  if h : acc.cp.currentNodeIndex < acc.cp.nodes.length then
    let agent1 := MogiNode.execute env (acc.cp.nodes.get ⟨acc.cp.currentNodeIndex, h⟩) agent
    { acc with agentsOut := acc.agentsOut ++ [agent1], hasMore := true }
  else
    match lookupBS acc.cp.branchStates agent.id with
    | some bs =>
      if bs.completed then
        { acc with agentsOut := acc.agentsOut ++ [agent] }
      else
        let r := executeAgentStep env (branchOf acc.cp bs.branch) agent
        let cp1 := setBranchProc acc.cp bs.branch r.1
        let cp2 := { cp1 with
          branchStates := setBS cp1.branchStates agent.id ⟨bs.branch, !r.2.2⟩ }
        { acc with
          cp := cp2
          agentsOut := acc.agentsOut ++ [r.2.1]
          hasMore := acc.hasMore || r.2.2 }
    | none =>
      let tag := if acc.cp.cond agent then BranchTag.onTrue else BranchTag.onFalse
      let cp1 := setBranchProc acc.cp tag (branchOf acc.cp tag).resetExecution
      let cp2 := { cp1 with branchStates := setBS cp1.branchStates agent.id ⟨tag, false⟩ }
      let r := executeAgentStep env (branchOf cp2 tag) agent
      let cp3 := setBranchProc cp2 tag r.1
      let cp4 := { cp3 with branchStates := setBS cp3.branchStates agent.id ⟨tag, !r.2.2⟩ }
      { cp := cp4
        agentsOut := acc.agentsOut ++ [r.2.1]
        hasMore := acc.hasMore || r.2.2
        evaluated := acc.evaluated ++ [agent.id] }

/-- `MogiConditionalProcess.executeConditionalStep` (src/mogi.ts lines 384-420):
loop over the agents, then advance the shared cursor (returning `true`) if the
node prefix is still in progress, else report whether any agent still has work. -/
def executeConditionalStep (env : Env) (cp : CondProc) (agents : List MogiAgentState) : CondAcc :=
  let acc := agents.foldl (condStepAgent env) ⟨cp, [], false, []⟩
  if acc.cp.currentNodeIndex < acc.cp.nodes.length then
    { acc with
      cp := { acc.cp with currentNodeIndex := acc.cp.currentNodeIndex + 1 }
      hasMore := true }
  else
    acc

/-- Drive a conditional process through a sequence of steps, each with its own
list of current agent states; returns the final process state and the
concatenated predicate-evaluation log. -/
def condRun (env : Env) (cp : CondProc) : List (List MogiAgentState) → CondProc × List String
  | [] => (cp, [])
  | ags :: rest =>
    let r := executeConditionalStep env cp ags
    let rec_ := condRun env r.cp rest
    (rec_.1, r.evaluated ++ rec_.2)

/-- A process bound to the simulation is either linear or conditional
(`instanceof MogiConditionalProcess` distinguishes them at runtime). -/
inductive Proc where
  | linear (p : LinearProc)
  | cond (p : CondProc)

/-- The `id` of either kind of process. -/
def procId : Proc → String
  | .linear p => p.id
  | .cond p => p.id

/-- `MogiSimulationState` (src/mogi.ts lines 31-36). -/
structure MogiSimulationState where
  currentProcessId : Option String
  activeAgents : List String
  nodeIndex : Nat
  isComplete : Bool
deriving DecidableEq, Repr

/-- One entry of the `executionQueue` (src/mogi.ts lines 60-64). -/
structure QueueItem where
  processId : String
  agentId : String
  nodeIndex : Nat
deriving DecidableEq, Repr

/-- `AIUsageStats` (src/ai-interface); JS numbers are modelled as rationals. -/
structure AIUsageStats where
  totalCalls : ℚ
  totalInputTokens : ℚ
  totalOutputTokens : ℚ
  estimatedCost : ℚ
deriving DecidableEq, Repr

/-- The all-zero usage record. -/
def zeroUsage : AIUsageStats := ⟨0, 0, 0, 0⟩

/-- Field-wise addition of usage records (the body of the reduce callback in
`getAIUsage`, src/mogi.ts lines 198-208). -/
def addUsage (a b : AIUsageStats) : AIUsageStats :=
  ⟨a.totalCalls + b.totalCalls, a.totalInputTokens + b.totalInputTokens,
   a.totalOutputTokens + b.totalOutputTokens, a.estimatedCost + b.estimatedCost⟩

/-- Field-wise sum of a list of usage records. -/
def sumUsage (l : List AIUsageStats) : AIUsageStats :=
  l.foldl addUsage zeroUsage

/-- `MogiSimulation`'s private state (src/mogi.ts lines 51-74).  AI service
objects are identified by their `Nat` identity; their mutable usage counters
live outside the simulation and are passed as a table where needed. -/
structure MogiSimulation where
  aiServices : List Nat
  globalUsage : AIUsageStats
  executionQueue : List QueueItem
  currentState : MogiSimulationState
  agents : List (String × MogiAgentState)
  processes : List Proc

/-- `Map.get` on the agents map; `none` models the `getAgentState` throw for an
unregistered id (src/mogi.ts lines 99-105). -/
def lookupAgent : List (String × MogiAgentState) → String → Option MogiAgentState
  | [], _ => none
  | (k, v) :: rest, key => if k = key then some v else lookupAgent rest key

/-- `activeAgents.map(id => this.getAgentState(id))` (src/mogi.ts lines 160,
167): `none` as soon as one lookup throws. -/
def getAgentStates (m : List (String × MogiAgentState)) : List String → Option (List MogiAgentState)
  | [] => some []
  | aid :: rest =>
    match lookupAgent m aid, getAgentStates m rest with
    | some a, some l => some (a :: l)
    | _, _ => none

/-- In-place mutation of the agent object with this id: replace the value of
the first entry whose key is the agent's id. -/
def setAgent : List (String × MogiAgentState) → MogiAgentState → List (String × MogiAgentState)
  | [], _ => []
  | (k, v) :: rest, ag => if k = ag.id then (k, ag) :: rest else (k, v) :: setAgent rest ag

/-- `this.processes.find(p => p.id === currentProcessId)` (src/mogi.ts
line 151); a `null` current id matches nothing. -/
def findProc (ps : List Proc) : Option String → Option Proc
  | none => none
  | some pid => ps.find? fun p => procId p == pid

/-- In-place mutation of the process object returned by `find`: replace the
first process with the same id. -/
def setProcFirst : List Proc → Proc → List Proc
  | [], _ => []
  | q :: rest, p => if procId q = procId p then p :: rest else q :: setProcFirst rest p

/-- `MogiSimulation.executeStep` (src/mogi.ts lines 148-177).  `none` models an
uncaught exception: an unregistered active agent id, or — on the linear path —
indexing `nodes[nodeIndex]` out of bounds, which makes `currentNode.execute`
throw a TypeError. -/
def executeStep (env : Env) (sim : MogiSimulation) : Option (MogiSimulation × Bool) :=
  if sim.currentState.isComplete then some (sim, false)
  else
    match findProc sim.processes sim.currentState.currentProcessId with
    | none =>
      some ({ sim with currentState := { sim.currentState with isComplete := true } }, false)
    | some (Proc.cond cp) =>
      match getAgentStates sim.agents sim.currentState.activeAgents with
      | none => none
      | some ags =>
        let r := executeConditionalStep env cp ags
        some ({ sim with
                processes := setProcFirst sim.processes (Proc.cond r.cp)
                agents := r.agentsOut.foldl setAgent sim.agents }, r.hasMore)
    | some (Proc.linear lp) =>
      match lp.nodes.get? sim.currentState.nodeIndex with
      | none => none
      | some node =>
        match getAgentStates sim.agents sim.currentState.activeAgents with
        | none => none
        | some ags =>
          let ags1 := ags.map fun a => MogiNode.execute env node a
          let ni := sim.currentState.nodeIndex + 1
          let comp := decide (lp.nodes.length ≤ ni)
          some ({ sim with
                  agents := ags1.foldl setAgent sim.agents
                  currentState := { sim.currentState with nodeIndex := ni, isComplete := comp } },
                !comp)

/-- The AI services reachable from a process (`getAIServices`, src/mogi.ts
lines 268-270 and 438-446). -/
def getAIServicesOf : Proc → List Nat
  | .linear p => p.nodes.map (·.aiService)
  | .cond cp =>
    cp.nodes.map (·.aiService) ++ cp.trueBranch.nodes.map (·.aiService) ++
      cp.falseBranch.nodes.map (·.aiService)

/-- `trackAIService` (src/mogi.ts lines 191-195): add to the set if absent. -/
def trackAIService (l : List Nat) (s : Nat) : List Nat :=
  if s ∈ l then l else l ++ [s]

/-- `MogiSimulation.initializeProcess` (src/mogi.ts lines 115-146): reset the
run state, snapshot the agent ids, clear and refill the queue, register the
process's AI services, and append the process object as-is. -/
def initializeProcess (sim : MogiSimulation) (p : Proc) : MogiSimulation :=
  let active := sim.agents.map (·.1)
  { sim with
    currentState :=
      { currentProcessId := some (procId p), activeAgents := active,
        nodeIndex := 0, isComplete := false }
    aiServices := (getAIServicesOf p).foldl trackAIService sim.aiServices
    processes := sim.processes ++ [p]
    executionQueue := active.map fun aid => ⟨procId p, aid, 0⟩ }

/-- `MogiSimulation.getAIUsage` (src/mogi.ts lines 197-209): fold the tracked
services' counters onto a copy of `globalUsage`; `svc` is the table of each
service object's current counters. -/
def getAIUsage (svc : Nat → AIUsageStats) (sim : MogiSimulation) : AIUsageStats :=
  sim.aiServices.foldl (fun acc sid => addUsage acc (svc sid)) sim.globalUsage

/-- `MogiSimulation.resetAIUsage` (src/mogi.ts lines 211-219): zero every
tracked service's counters and the global record. -/
def resetAIUsage (svc : Nat → AIUsageStats) (sim : MogiSimulation) :
    (Nat → AIUsageStats) × MogiSimulation :=
  (fun sid => if sid ∈ sim.aiServices then zeroUsage else svc sid,
   { sim with globalUsage := zeroUsage })

/-- The simulation after one `executeStep` call; a call that throws leaves the
simulation object as it was. -/
def stepSim (env : Env) (sim : MogiSimulation) : MogiSimulation :=
  match executeStep env sim with
  | some p => p.1
  | none => sim

/-- The boolean returned by one `executeStep` call; `none` if the call threw. -/
def stepRetOf (env : Env) (sim : MogiSimulation) : Option Bool :=
  (executeStep env sim).map (·.2)

/-- The simulation after `k` consecutive `executeStep` calls. -/
def stepSimN (env : Env) : Nat → MogiSimulation → MogiSimulation
  | 0, sim => sim
  | k + 1, sim => stepSimN env k (stepSim env sim)

/-- The node-id trail of an agent's history inside a simulation. -/
def historyTrail (sim : MogiSimulation) (aid : String) : Option (List String) :=
  (lookupAgent sim.agents aid).map fun a => a.history.map (·.nodeId)

/-- The `completed` flag of an agent's branch binding inside the simulation's
process with the given id, when that process is conditional. -/
def boundCompleted (sim : MogiSimulation) (pid aid : String) : Option Bool :=
  match findProc sim.processes (some pid) with
  | some (Proc.cond cp) => (lookupBS cp.branchStates aid).map (·.completed)
  | _ => none

/-- A fresh simulation holding the given agents map, as after construction and
`addAgent` calls (src/mogi.ts lines 65-97). -/
def baseSim (agents : List (String × MogiAgentState)) : MogiSimulation :=
  { aiServices := []
    globalUsage := zeroUsage
    executionQueue := []
    currentState := { currentProcessId := none, activeAgents := [], nodeIndex := 0, isComplete := true }
    agents := agents
    processes := [] }

/-! Helper lemmas about the embedding. -/

/-- A node execution never changes the agent's id. -/
theorem execute_id (env : Env) (node : MogiNode) (agent : MogiAgentState) :
    (MogiNode.execute env node agent).id = agent.id := by
  unfold MogiNode.execute
  cases env.oracle node agent with
  | throws => rfl
  | replies r => rfl

/-- Shape of a successful node execution: some change set is merged and exactly
one history entry recording it is appended. -/
theorem execute_shape (env : Env) (node : MogiNode) (agent : MogiAgentState)
    (h : (env.oracle node agent).isReplies = true) :
    ∃ ch, MogiNode.execute env node agent =
      { id := agent.id
        attributes := mergeAttrs agent.attributes ch
        history := agent.history ++
          [{ nodeId := node.id, changes := ch, reasoning := lookupVal ch "_reasoning" }] } := by
  unfold MogiNode.execute
  cases hr : env.oracle node agent with
  | throws => rw [hr] at h; exact absurd h (by simp [CallResult.isReplies])
  | replies r => exact ⟨parseAIReponse env.jsonParse r, rfl⟩

/-- A successful node execution appends exactly one history entry. -/
theorem execute_history_len (env : Env) (node : MogiNode) (agent : MogiAgentState)
    (h : (env.oracle node agent).isReplies = true) :
    (MogiNode.execute env node agent).history.length = agent.history.length + 1 := by
  obtain ⟨ch, hch⟩ := execute_shape env node agent h
  rw [hch]
  simp

/-! Concrete objects used by the witnesses. -/

/-- A concrete node. -/
def demoNode : MogiNode := ⟨"n0", 0, "instr", none, false⟩

/-- A concrete true-branch node. -/
def demoNodeT0 : MogiNode := ⟨"t0", 0, "instrT0", none, false⟩

/-- Another concrete true-branch node. -/
def demoNodeT1 : MogiNode := ⟨"t1", 0, "instrT1", none, false⟩

/-- A concrete false-branch node. -/
def demoNodeF0 : MogiNode := ⟨"f0", 0, "instrF0", none, false⟩

/-- A concrete agent with height 160. -/
def demoAgentA : MogiAgentState := ⟨"A", [("height", Val.vInt 160)], []⟩

/-- A concrete agent with height 100. -/
def demoAgentB : MogiAgentState := ⟨"B", [("height", Val.vInt 100)], []⟩

/-- The height ∈ [150, 200] predicate over an agent's attributes. -/
def condHeight (a : MogiAgentState) : Bool :=
  match lookupVal a.attributes "height" with
  | some (Val.vInt h) => decide (150 ≤ h) && decide (h ≤ 200)
  | _ => false

/-- An environment whose capability always succeeds with a parseable reply. -/
def demoEnv : Env :=
  { oracle := fun _ _ => CallResult.replies (AIPromptResponse.str "obj")
    jsonParse := fun s => if s = "obj" then some [] else none }

/-- An environment whose capability replies with an unparseable payload. -/
def demoEnvBadReply : Env :=
  { oracle := fun _ _ => CallResult.replies (AIPromptResponse.str "bad")
    jsonParse := fun _ => none }

/-- An environment whose capability call rejects for agent "A" and succeeds
with a parseable reply for everyone else. -/
def demoEnvMixed : Env :=
  { oracle := fun _ ag =>
      if ag.id = "A" then CallResult.throws else CallResult.replies (AIPromptResponse.str "obj")
    jsonParse := fun s => if s = "obj" then some [] else none }

/-! Claim theorems. -/

/-- C6: a capability reply that fails to deserialize does not make node
execution throw; the change set `{_error: "Invalid AI response", _raw: reply}`
is merged into the agent's attributes like any other change set and a history
entry recording it is appended. -/
theorem c6_parse_failure_merged (env : Env) (node : MogiNode) (agent : MogiAgentState)
    (resp : AIPromptResponse)
    (hr : env.oracle node agent = CallResult.replies resp)
    (hp : (extractJsonStr resp).bind env.jsonParse = none) :
    MogiNode.execute env node agent =
      { id := agent.id
        attributes := mergeAttrs agent.attributes
          [("_error", Val.vStr "Invalid AI response"), ("_raw", Val.vRaw resp)]
        history := agent.history ++
          [{ nodeId := node.id
             changes := [("_error", Val.vStr "Invalid AI response"), ("_raw", Val.vRaw resp)]
             reasoning := none }] } := by
  unfold MogiNode.execute
  rw [hr]
  simp only [parseAIReponse, hp]
  unfold applyChanges
  norm_num [lookupVal]
  rw [if_neg (by decide : ¬("_error" = "_reasoning")),
    if_neg (by decide : ¬("_raw" = "_reasoning"))]

/-- Witness for C6 at a concrete unparseable reply. -/
theorem c6_parse_failure_merged_witness :
    MogiNode.execute demoEnvBadReply demoNode demoAgentA =
      { id := demoAgentA.id
        attributes := mergeAttrs demoAgentA.attributes
          [("_error", Val.vStr "Invalid AI response"),
           ("_raw", Val.vRaw (AIPromptResponse.str "bad"))]
        history := demoAgentA.history ++
          [{ nodeId := demoNode.id
             changes := [("_error", Val.vStr "Invalid AI response"),
                         ("_raw", Val.vRaw (AIPromptResponse.str "bad"))]
             reasoning := none }] } :=
  c6_parse_failure_merged demoEnvBadReply demoNode demoAgentA (AIPromptResponse.str "bad") rfl rfl

/-- C8: stepping a run that is already complete, or whose current process id
matches no bound process, returns false without raising; in the second case the
run is additionally marked complete. -/
theorem c8_invalid_state_returns_false (env : Env) (sim : MogiSimulation) :
    (sim.currentState.isComplete = true → executeStep env sim = some (sim, false)) ∧
    (sim.currentState.isComplete = false →
      findProc sim.processes sim.currentState.currentProcessId = none →
      executeStep env sim =
        some ({ sim with currentState := { sim.currentState with isComplete := true } }, false)) := by
  constructor
  · intro h
    simp [executeStep, h]
  · intro h hf
    simp [executeStep, h, hf]

/-- A complete run, for the C8 witness. -/
def simComplete : MogiSimulation := baseSim []

/-- An incomplete run whose process id matches nothing, for the C8 witness. -/
def simNoProc : MogiSimulation :=
  { baseSim [] with
    currentState := { currentProcessId := some "p", activeAgents := [], nodeIndex := 0, isComplete := false } }

/-- Witness for C8 at concrete simulations. -/
theorem c8_invalid_state_returns_false_witness :
    executeStep demoEnv simComplete = some (simComplete, false) ∧
    executeStep demoEnv simNoProc =
      some ({ simNoProc with
              currentState := { simNoProc.currentState with isComplete := true } }, false) :=
  ⟨(c8_invalid_state_returns_false demoEnv simComplete).1 rfl,
   (c8_invalid_state_returns_false demoEnv simNoProc).2 rfl rfl⟩

/-- Adding the all-zero record changes nothing. -/
theorem addUsage_zero (a : AIUsageStats) : addUsage a zeroUsage = a := by
  simp [addUsage, zeroUsage]

/-- Folding a table that is zero on every element of the list keeps the
accumulator at zero. -/
theorem foldl_addUsage_zero (f : Nat → AIUsageStats) :
    ∀ l : List Nat, (∀ x ∈ l, f x = zeroUsage) →
      l.foldl (fun acc sid => addUsage acc (f sid)) zeroUsage = zeroUsage := by
  intro l
  induction l with
  | nil => intro _; rfl
  | cons x xs ih =>
    intro h
    have hx : f x = zeroUsage := h x (by simp)
    simp only [List.foldl_cons, hx, addUsage_zero]
    exact ih fun y hy => h y (by simp [hy])

/-- C7: `getAIUsage` is exactly the field-wise sum of the usage counters of the
distinct tracked capability instances (it starts from `globalUsage`, which is
zero in every reachable state: it is zero at construction, `resetAIUsage` zeroes
it, and neither `initializeProcess` nor `executeStep` touches it — the last two
conjuncts); being a pure read it mutates nothing; right after `resetAIUsage`
the aggregate is all zeros. -/
theorem c7_usage_aggregation (env : Env) (svc : Nat → AIUsageStats) (sim : MogiSimulation)
    (p : Proc) (h0 : sim.globalUsage = zeroUsage) :
    getAIUsage svc sim = sumUsage (sim.aiServices.map svc) ∧
    getAIUsage (resetAIUsage svc sim).1 (resetAIUsage svc sim).2 = zeroUsage ∧
    (initializeProcess sim p).globalUsage = sim.globalUsage ∧
    (stepSim env sim).globalUsage = sim.globalUsage := by
  refine ⟨?_, ?_, rfl, ?_⟩
  · unfold getAIUsage sumUsage
    rw [h0, List.foldl_map]
  · unfold getAIUsage resetAIUsage
    exact foldl_addUsage_zero _ sim.aiServices fun x hx => by simp [hx]
  · unfold stepSim executeStep
    rcases sim with ⟨ais, gu, q, cs, ags, ps⟩
    by_cases hc : cs.isComplete
    · simp [hc]
    · simp only [hc]
      cases hf : findProc ps cs.currentProcessId with
      | none => simp
      | some pr =>
        cases pr with
        | cond cp =>
          simp only
          cases hg : getAgentStates ags cs.activeAgents <;> simp
        | linear lp =>
          simp only
          cases hn : lp.nodes.get? cs.nodeIndex with
          | none => simp
          | some nd =>
            simp only
            cases hg : getAgentStates ags cs.activeAgents <;> simp

/-- A concrete usage table for the C7 witness. -/
def demoSvcTable (sid : Nat) : AIUsageStats := ⟨(sid : ℚ) + 1, 2, 3, (sid : ℚ) / 2⟩

/-- A simulation tracking two services, for the C7 witness. -/
def simTwoServices : MogiSimulation := { baseSim [] with aiServices := [1, 2] }

/-- Witness for C7 at a concrete table and simulation. -/
theorem c7_usage_aggregation_witness :
    getAIUsage demoSvcTable simTwoServices = sumUsage (simTwoServices.aiServices.map demoSvcTable) ∧
    getAIUsage (resetAIUsage demoSvcTable simTwoServices).1
      (resetAIUsage demoSvcTable simTwoServices).2 = zeroUsage ∧
    (initializeProcess simTwoServices (Proc.linear ⟨"p", [], 0⟩)).globalUsage =
      simTwoServices.globalUsage ∧
    (stepSim demoEnv simTwoServices).globalUsage = simTwoServices.globalUsage :=
  c7_usage_aggregation demoEnv demoSvcTable simTwoServices (Proc.linear ⟨"p", [], 0⟩) rfl

/-- C2: `executeAgentStep` on a process whose cursor is below its node count
advances that process's single cursor by one and reports more work, whatever
agent is passed; consequently, when a conditional process binds two agents to
the same branch instance in one step (both unbound, predicate true for every
state), the second agent's first binding resets the shared cursor via
`resetExecution` and both agents' steps mutate that one cursor, leaving it at 1
rather than giving each agent a private cursor. -/
theorem c2_shared_branch_cursor (env : Env) :
    (∀ (p : LinearProc) (ag : MogiAgentState), p.currentNodeIndex < p.nodes.length →
      (executeAgentStep env p ag).1.currentNodeIndex = p.currentNodeIndex + 1 ∧
      (executeAgentStep env p ag).2.2 = true) ∧
    (∀ (cp : CondProc) (a b : MogiAgentState),
      cp.nodes = [] → cp.branchStates = [] → (∀ s, cp.cond s = true) → a.id ≠ b.id →
      0 < cp.trueBranch.nodes.length →
      (executeConditionalStep env cp [a, b]).cp.trueBranch.currentNodeIndex = 1 ∧
      getActiveBranch (executeConditionalStep env cp [a, b]).cp a.id = some BranchTag.onTrue ∧
      getActiveBranch (executeConditionalStep env cp [a, b]).cp b.id = some BranchTag.onTrue) := by
  constructor
  · intro p ag h
    simp [executeAgentStep, h]
  · intro cp a b hn hbs hc hab htl
    simp [executeConditionalStep, condStepAgent, hn, hbs, hc, hab, branchOf, setBranchProc,
      LinearProc.resetExecution, executeAgentStep, setBS, lookupBS, getActiveBranch, htl,
      Ne.symm hab]

/-- A conditional process with no shared nodes whose predicate holds for every
agent, for the C2 witness. -/
def demoCondBoth : CondProc :=
  ⟨"cb", fun _ => true, ⟨"tb", [demoNodeT0, demoNodeT1], 0⟩, ⟨"fb", [demoNodeF0], 0⟩, [], 0, []⟩

/-- Witness for C2 at a concrete process and two concrete agents. -/
theorem c2_shared_branch_cursor_witness :
    ((executeAgentStep demoEnv ⟨"tb", [demoNodeT0], 0⟩ demoAgentA).1.currentNodeIndex = 0 + 1 ∧
     (executeAgentStep demoEnv ⟨"tb", [demoNodeT0], 0⟩ demoAgentA).2.2 = true) ∧
    ((executeConditionalStep demoEnv demoCondBoth [demoAgentA, demoAgentB]).cp.trueBranch.currentNodeIndex = 1 ∧
     getActiveBranch (executeConditionalStep demoEnv demoCondBoth [demoAgentA, demoAgentB]).cp
       demoAgentA.id = some BranchTag.onTrue ∧
     getActiveBranch (executeConditionalStep demoEnv demoCondBoth [demoAgentA, demoAgentB]).cp
       demoAgentB.id = some BranchTag.onTrue) :=
  ⟨(c2_shared_branch_cursor demoEnv).1 ⟨"tb", [demoNodeT0], 0⟩ demoAgentA (by decide),
   (c2_shared_branch_cursor demoEnv).2 demoCondBoth demoAgentA demoAgentB rfl rfl
     (fun _ => rfl) (by decide) (by decide)⟩

/-- C9: when the current process is conditional, `executeStep` never touches the
simulation's own run state (`nodeIndex` stays at its initialized 0 and
`isComplete` stays false forever, even once the conditional run is exhausted and
the step returns false); only the returned boolean — the conditional step's
`hasMoreSteps` — reflects progress. -/
theorem c9_conditional_run_state_frame (env : Env) (sim : MogiSimulation) (cp : CondProc)
    (hfind : findProc sim.processes sim.currentState.currentProcessId = some (Proc.cond cp)) :
    (stepSim env sim).currentState = sim.currentState ∧
    (sim.currentState.isComplete = false →
      ∀ ags, getAgentStates sim.agents sim.currentState.activeAgents = some ags →
        stepRetOf env sim = some (executeConditionalStep env cp ags).hasMore) := by
  by_cases hc : sim.currentState.isComplete
  · constructor
    · simp [stepSim, executeStep, hc]
    · intro h
      rw [h] at hc
      exact absurd hc (by simp)
  · have hc' : sim.currentState.isComplete = false := by simpa using hc
    cases hg : getAgentStates sim.agents sim.currentState.activeAgents with
    | none =>
      constructor
      · simp [stepSim, executeStep, hc', hfind, hg]
      · intro _ ags hags
        cases hags
    | some ags0 =>
      constructor
      · simp [stepSim, executeStep, hc', hfind, hg]
      · intro _ ags hags
        injection hags with h'
        subst h'
        simp [stepRetOf, executeStep, hc', hfind, hg]

/-- A conditional process for the C9 witness. -/
def demoCondA : CondProc :=
  ⟨"cp", condHeight, ⟨"tb", [demoNodeT0, demoNodeT1], 0⟩, ⟨"fb", [demoNodeF0], 0⟩,
   [demoNode], 0, []⟩

/-- A running simulation whose current process is conditional, for the C9
witness. -/
def simCondDemo : MogiSimulation :=
  initializeProcess (baseSim [("A", demoAgentA)]) (Proc.cond demoCondA)

/-- Witness for C9 at a concrete conditional simulation. -/
theorem c9_conditional_run_state_frame_witness :
    (stepSim demoEnv simCondDemo).currentState = simCondDemo.currentState ∧
    stepRetOf demoEnv simCondDemo =
      some (executeConditionalStep demoEnv demoCondA [demoAgentA]).hasMore :=
  ⟨(c9_conditional_run_state_frame demoEnv simCondDemo demoCondA rfl).1,
   (c9_conditional_run_state_frame demoEnv simCondDemo demoCondA rfl).2 rfl [demoAgentA] rfl⟩

/-- A fresh-id process appended to the process list is the one `find` returns. -/
theorem findProc_append_self (p : Proc) :
    ∀ ps : List Proc, (∀ q ∈ ps, procId q ≠ procId p) →
      findProc (ps ++ [p]) (some (procId p)) = some p := by
  intro ps
  induction ps with
  | nil =>
    intro _
    simp [findProc, List.find?]
  | cons q qs ih =>
    intro h
    have hq : (procId q == procId p) = false :=
      beq_eq_false_iff_ne.mpr (h q (by simp))
    simp only [findProc, List.cons_append, List.find?_cons, hq]
    exact ih fun x hx => h x (by simp [hx])

/-- C10: `initializeProcess` resets only the simulation's own run state
(current process id, active-agent snapshot, cursor, completion flag, queue); the
process object is appended verbatim — its own cursor and, for a conditional
process, its per-agent branch bindings survive — and (for a fresh id) it is
exactly what subsequent lookups return, so re-initializing a previously run
conditional process without `resetExecution` resumes from the stale cursor and
bindings. -/
theorem c10_initialize_frame (sim : MogiSimulation) (p : Proc)
    (hfresh : ∀ q ∈ sim.processes, procId q ≠ procId p) :
    (initializeProcess sim p).processes = sim.processes ++ [p] ∧
    (initializeProcess sim p).agents = sim.agents ∧
    (initializeProcess sim p).currentState =
      { currentProcessId := some (procId p), activeAgents := sim.agents.map (·.1),
        nodeIndex := 0, isComplete := false } ∧
    (initializeProcess sim p).executionQueue =
      (sim.agents.map (·.1)).map (fun aid => ⟨procId p, aid, 0⟩) ∧
    findProc (initializeProcess sim p).processes (some (procId p)) = some p :=
  ⟨rfl, rfl, rfl, rfl, findProc_append_self p sim.processes hfresh⟩

/-- A conditional process carrying stale state from an earlier run (cursor past
its single shared node, one completed binding), for the C10 witness. -/
def demoStaleCond : CondProc :=
  ⟨"cp", condHeight, ⟨"tb", [demoNodeT0, demoNodeT1], 2⟩, ⟨"fb", [demoNodeF0], 0⟩,
   [demoNode], 1, [("A", ⟨BranchTag.onTrue, true⟩)]⟩

/-- Witness for C10: initializing with a stale conditional process keeps its
cursor and bindings intact. -/
theorem c10_initialize_frame_witness :
    (initializeProcess (baseSim [("A", demoAgentA)]) (Proc.cond demoStaleCond)).processes =
      (baseSim [("A", demoAgentA)]).processes ++ [Proc.cond demoStaleCond] ∧
    (initializeProcess (baseSim [("A", demoAgentA)]) (Proc.cond demoStaleCond)).agents =
      (baseSim [("A", demoAgentA)]).agents ∧
    (initializeProcess (baseSim [("A", demoAgentA)]) (Proc.cond demoStaleCond)).currentState =
      { currentProcessId := some (procId (Proc.cond demoStaleCond)),
        activeAgents := (baseSim [("A", demoAgentA)]).agents.map (·.1),
        nodeIndex := 0, isComplete := false } ∧
    (initializeProcess (baseSim [("A", demoAgentA)]) (Proc.cond demoStaleCond)).executionQueue =
      ((baseSim [("A", demoAgentA)]).agents.map (·.1)).map
        (fun aid => ⟨procId (Proc.cond demoStaleCond), aid, 0⟩) ∧
    findProc (initializeProcess (baseSim [("A", demoAgentA)]) (Proc.cond demoStaleCond)).processes
      (some (procId (Proc.cond demoStaleCond))) = some (Proc.cond demoStaleCond) :=
  c10_initialize_frame (baseSim [("A", demoAgentA)]) (Proc.cond demoStaleCond)
    (fun q hq => absurd hq (by simp [baseSim]))

/-- C4: a capability call that rejects inside `MogiNode.execute` is caught and
the call returns normally with the agent's attributes and history untouched; in
a linear step where the call fails for one agent and succeeds for another, only
the succeeding agent's history grows (by one entry) and the step's return value
still reflects the shared cursor alone. -/
theorem c4_capability_failure_isolated (env : Env) :
    (∀ (node : MogiNode) (ag : MogiAgentState),
      env.oracle node ag = CallResult.throws → MogiNode.execute env node ag = ag) ∧
    (∀ (sim : MogiSimulation) (lp : LinearProc) (node : MogiNode) (a b : MogiAgentState),
      sim.currentState.isComplete = false →
      findProc sim.processes sim.currentState.currentProcessId = some (Proc.linear lp) →
      lp.nodes.get? sim.currentState.nodeIndex = some node →
      sim.agents = [(a.id, a), (b.id, b)] →
      sim.currentState.activeAgents = [a.id, b.id] →
      a.id ≠ b.id →
      env.oracle node a = CallResult.throws →
      (env.oracle node b).isReplies = true →
      stepRetOf env sim = some (!decide (lp.nodes.length ≤ sim.currentState.nodeIndex + 1)) ∧
      lookupAgent (stepSim env sim).agents a.id = some a ∧
      ((lookupAgent (stepSim env sim).agents b.id).map fun x => x.history.length) =
        some (b.history.length + 1)) := by
  constructor
  · intro node ag h
    simp [MogiNode.execute, h]
  · intro sim lp node a b hc hfind hnode hagents hactive hab hthrow hok
    have hea : MogiNode.execute env node a = a := by
      simp [MogiNode.execute, hthrow]
    obtain ⟨ch, hch⟩ := execute_shape env node b hok
    have hga : getAgentStates sim.agents sim.currentState.activeAgents = some [a, b] := by
      rw [hagents, hactive]
      simp [getAgentStates, lookupAgent, hab]
    have hnode2 : lp.nodes[sim.currentState.nodeIndex]? = some node := by
      simpa using hnode
    have hstep : executeStep env sim =
        some ({ sim with
                agents := [(a.id, a), (b.id, MogiNode.execute env node b)]
                currentState := { sim.currentState with
                  nodeIndex := sim.currentState.nodeIndex + 1
                  isComplete := decide (lp.nodes.length ≤ sim.currentState.nodeIndex + 1) } },
              !decide (lp.nodes.length ≤ sim.currentState.nodeIndex + 1)) := by
      simp only [executeStep, hc, Bool.false_eq_true, if_false, hfind, List.get?_eq_getElem?,
        hnode2, hga, List.map_cons, List.map_nil, List.foldl_cons, List.foldl_nil, hea]
      rw [hagents]
      simp [setAgent, execute_id, hab, Ne.symm hab]
    refine ⟨?_, ?_, ?_⟩
    · rw [stepRetOf, hstep]
      rfl
    · simp only [stepSim, hstep]
      simp [lookupAgent]
    · simp only [stepSim, hstep]
      simp only [lookupAgent, if_neg hab, if_pos rfl]
      rw [hch]
      simp

/-- A two-agent linear simulation for the C4 witness. -/
def simMixed : MogiSimulation :=
  initializeProcess (baseSim [("A", demoAgentA), ("B", demoAgentB)])
    (Proc.linear ⟨"lp", [demoNode], 0⟩)

/-- Witness for C4: the capability rejects for agent "A" and succeeds for agent
"B" within the same step. -/
theorem c4_capability_failure_isolated_witness :
    MogiNode.execute demoEnvMixed demoNode demoAgentA = demoAgentA ∧
    stepRetOf demoEnvMixed simMixed =
      some (!decide ((⟨"lp", [demoNode], 0⟩ : LinearProc).nodes.length ≤
        simMixed.currentState.nodeIndex + 1)) ∧
    lookupAgent (stepSim demoEnvMixed simMixed).agents demoAgentA.id = some demoAgentA ∧
    ((lookupAgent (stepSim demoEnvMixed simMixed).agents demoAgentB.id).map
      fun x => x.history.length) = some (demoAgentB.history.length + 1) :=
  ⟨(c4_capability_failure_isolated demoEnvMixed).1 demoNode demoAgentA rfl,
   (c4_capability_failure_isolated demoEnvMixed).2 simMixed ⟨"lp", [demoNode], 0⟩ demoNode
     demoAgentA demoAgentB rfl rfl rfl rfl rfl (by decide) rfl rfl⟩

/-- Writing back a branch process never touches the branch-state map. -/
theorem setBranchProc_branchStates (cp : CondProc) (t : BranchTag) (lp : LinearProc) :
    (setBranchProc cp t lp).branchStates = cp.branchStates := by
  cases t <;> rfl

/-- Lookup after a `Map.set`: the written key reads back the new value, any
other key is unaffected. -/
theorem lookupBS_setBS (l : List (String × BranchState)) (k : String) (v : BranchState)
    (key : String) :
    lookupBS (setBS l k v) key = if k = key then some v else lookupBS l key := by
  induction l with
  | nil => simp [setBS, lookupBS]
  | cons e rest ih =>
    obtain ⟨k', v'⟩ := e
    by_cases hk : k' = k
    · subst hk
      simp only [setBS, if_pos rfl, lookupBS]
      by_cases hx : k' = key <;> simp [hx]
    · simp only [setBS, if_neg hk, lookupBS]
      by_cases hk2 : k' = key
      · subst hk2
        have : ¬ k = k' := fun h => hk h.symm
        simp [lookupBS, this, if_neg this]
      · simp [lookupBS, hk2, ih]

/-- One iteration of the conditional agent loop keeps an existing binding's
branch identity and never evaluates the predicate for that agent. -/
theorem condStepAgent_keeps_binding (env : Env) (aid : String) (t : BranchTag)
    (acc : CondAcc) (ag : MogiAgentState)
    (hb : (lookupBS acc.cp.branchStates aid).map (·.branch) = some t)
    (he : aid ∉ acc.evaluated) :
    (lookupBS (condStepAgent env acc ag).cp.branchStates aid).map (·.branch) = some t ∧
    aid ∉ (condStepAgent env acc ag).evaluated := by
  unfold condStepAgent
  by_cases h : acc.cp.currentNodeIndex < acc.cp.nodes.length
  · simp [h, hb, he]
  · simp only [dif_neg h]
    cases hlk : lookupBS acc.cp.branchStates ag.id with
    | some bs =>
      by_cases hcomp : bs.completed
      · simp [hcomp, hb, he]
      · by_cases heq : ag.id = aid
        · rw [heq] at hlk
          rw [hlk] at hb
          have hbt : bs.branch = t := by simpa using hb
          simp [hcomp, setBranchProc_branchStates, lookupBS_setBS, heq, hbt, he]
        · simp [hcomp, setBranchProc_branchStates, lookupBS_setBS, heq, hb, he]
    | none =>
      have heq : ag.id ≠ aid := by
        intro hEq
        rw [hEq] at hlk
        rw [hlk] at hb
        simp at hb
      simp [setBranchProc_branchStates, lookupBS_setBS, heq, hb, he, Ne.symm heq]

/-- The whole agent loop keeps an existing binding and its evaluation-free
status. -/
theorem foldl_condStepAgent_keeps (env : Env) (aid : String) (t : BranchTag) :
    ∀ (ags : List MogiAgentState) (acc : CondAcc),
      (lookupBS acc.cp.branchStates aid).map (·.branch) = some t → aid ∉ acc.evaluated →
      (lookupBS (ags.foldl (condStepAgent env) acc).cp.branchStates aid).map (·.branch) = some t ∧
      aid ∉ (ags.foldl (condStepAgent env) acc).evaluated := by
  intro ags
  induction ags with
  | nil => exact fun acc hb he => ⟨hb, he⟩
  | cons x xs ih =>
    intro acc hb he
    obtain ⟨hb1, he1⟩ := condStepAgent_keeps_binding env aid t acc x hb he
    simpa using ih (condStepAgent env acc x) hb1 he1

/-- One conditional step keeps an existing binding and does not evaluate the
predicate for the bound agent. -/
theorem condStep_keeps_binding (env : Env) (cp : CondProc) (aid : String) (t : BranchTag)
    (ags : List MogiAgentState) (hb : getActiveBranch cp aid = some t) :
    getActiveBranch (executeConditionalStep env cp ags).cp aid = some t ∧
    aid ∉ (executeConditionalStep env cp ags).evaluated := by
  unfold getActiveBranch at hb ⊢
  obtain ⟨hb1, he1⟩ :=
    foldl_condStepAgent_keeps env aid t ags ⟨cp, [], false, []⟩ hb (by simp)
  unfold executeConditionalStep
  by_cases h : (List.foldl (condStepAgent env) ⟨cp, [], false, []⟩ ags).cp.currentNodeIndex <
      (List.foldl (condStepAgent env) ⟨cp, [], false, []⟩ ags).cp.nodes.length
  · simp [h, hb1, he1]
  · simp [h, hb1, he1]

/-- C5: once an agent's id is present in the branch-state map with some branch,
any sequence of conditional steps — with arbitrary, arbitrarily mutated agent
states, so in particular with attributes the predicate reads changed — never
evaluates the predicate for that agent again (it never appears in the
evaluation log) and `getActiveBranch` keeps answering the same branch. -/
theorem c5_branch_binding_sticky (env : Env) (aid : String) (t : BranchTag) :
    ∀ (steps : List (List MogiAgentState)) (cp : CondProc),
      getActiveBranch cp aid = some t →
      getActiveBranch (condRun env cp steps).1 aid = some t ∧
      aid ∉ (condRun env cp steps).2 := by
  intro steps
  induction steps with
  | nil =>
    intro cp hb
    exact ⟨hb, by simp [condRun]⟩
  | cons s rest ih =>
    intro cp hb
    obtain ⟨hb1, he1⟩ := condStep_keeps_binding env cp aid t s hb
    obtain ⟨hb2, he2⟩ := ih (executeConditionalStep env cp s).cp hb1
    constructor
    · simpa [condRun] using hb2
    · simp [condRun, he1, he2]

/-- Witness for C5 at a concrete bound conditional process and one further step. -/
theorem c5_branch_binding_sticky_witness :
    getActiveBranch (condRun demoEnv demoStaleCond [[demoAgentA]]).1 "A" = some BranchTag.onTrue ∧
    "A" ∉ (condRun demoEnv demoStaleCond [[demoAgentA]]).2 :=
  c5_branch_binding_sticky demoEnv "A" BranchTag.onTrue [[demoAgentA]] demoStaleCond rfl

/-- A leading entry whose key is outside the requested ids is transparent to
`getAgentStates`. -/
theorem getAgentStates_shadow (k : String) (v : MogiAgentState)
    (m : List (String × MogiAgentState)) :
    ∀ ids : List String, k ∉ ids →
      getAgentStates ((k, v) :: m) ids = getAgentStates m ids := by
  intro ids
  induction ids with
  | nil => intro _; rfl
  | cons x xs ih =>
    intro hk
    have hx : k ≠ x := fun h => hk (by simp [h])
    have h1 : lookupAgent ((k, v) :: m) x = lookupAgent m x := by
      simp [lookupAgent, hx]
    simp [getAgentStates, h1, ih fun h => hk (by simp [h])]

/-- Fetching every agent by its own key succeeds and returns the stored values
in order, when the keys are distinct. -/
theorem getAgentStates_keys :
    ∀ m : List (String × MogiAgentState), (m.map (·.1)).Nodup →
      getAgentStates m (m.map (·.1)) = some (m.map (·.2)) := by
  intro m
  induction m with
  | nil => intro _; rfl
  | cons e rest ih =>
    obtain ⟨k, v⟩ := e
    intro h
    simp only [List.map_cons, List.nodup_cons] at h
    simp only [List.map_cons, getAgentStates, lookupAgent, if_pos rfl]
    rw [getAgentStates_shadow k v rest _ h.1, ih h.2]
    simp

/-- Writing agents whose ids all differ from the head key skips the head. -/
theorem foldl_setAgent_skip (k : String) (x : MogiAgentState) :
    ∀ (ws : List MogiAgentState) (rest : List (String × MogiAgentState)),
      (∀ w ∈ ws, w.id ≠ k) →
      List.foldl setAgent ((k, x) :: rest) ws = (k, x) :: List.foldl setAgent rest ws := by
  intro ws
  induction ws with
  | nil => intro rest _; rfl
  | cons w ws2 ih =>
    intro rest hws
    have hw : w.id ≠ k := hws w (by simp)
    have h1 : setAgent ((k, x) :: rest) w = (k, x) :: setAgent rest w := by
      have hkw : ¬ k = w.id := fun h => hw h.symm
      simp [setAgent, hkw]
    simp only [List.foldl_cons, h1]
    exact ih (setAgent rest w) fun y hy => hws y (by simp [hy])

/-- Writing back the in-order images of all stored agents under an id-preserving
function rewrites the map pointwise. -/
theorem foldl_setAgent_map (f : MogiAgentState → MogiAgentState)
    (hf : ∀ a, (f a).id = a.id) :
    ∀ m : List (String × MogiAgentState), (m.map (·.1)).Nodup →
      (∀ e ∈ m, e.2.id = e.1) →
      List.foldl setAgent m ((m.map (·.2)).map f) = m.map fun e => (e.1, f e.2) := by
  intro m
  induction m with
  | nil => intro _ _; rfl
  | cons e rest ih =>
    obtain ⟨k, v⟩ := e
    intro hnodup hids
    simp only [List.map_cons, List.nodup_cons] at hnodup
    have hvk : v.id = k := hids (k, v) (by simp)
    have h1 : setAgent ((k, v) :: rest) (f v) = (k, f v) :: rest := by
      simp [setAgent, hf, hvk]
    have hskip : ∀ w ∈ (rest.map (·.2)).map f, w.id ≠ k := by
      intro w hw
      simp only [List.map_map, List.mem_map, Function.comp] at hw
      obtain ⟨e2, he2, rfl⟩ := hw
      rw [hf, hids e2 (by simp [he2])]
      exact fun hEq => hnodup.1 (hEq ▸ List.mem_map_of_mem (·.1) he2)
    simp only [List.map_cons, List.foldl_cons, h1]
    rw [foldl_setAgent_skip k (f v) _ rest hskip,
      ih hnodup.2 fun y hy => hids y (by simp [hy])]

/-- Unfolding one step from the right of the step iterator. -/
theorem stepSimN_succ_right (env : Env) :
    ∀ (k : Nat) (s : MogiSimulation),
      stepSimN env (k + 1) s = stepSim env (stepSimN env k s) := by
  intro k
  induction k with
  | zero => intro s; rfl
  | succ n ih =>
    intro s
    simp only [stepSimN]
    exact ih (stepSim env s)

/-- One linear `executeStep` from a coherent mid-run state: every active agent
executes the node at the shared cursor, the cursor advances once, and the
completion flag and return value are read off the new cursor. -/
theorem linear_step_lemma (env : Env) (p : LinearProc) (s : MogiSimulation) (k : Nat)
    (hk : k < p.nodes.length)
    (hcs : s.currentState =
      { currentProcessId := some p.id, activeAgents := s.agents.map (·.1),
        nodeIndex := k, isComplete := decide (p.nodes.length ≤ k) })
    (hfind : findProc s.processes (some p.id) = some (Proc.linear p))
    (hnodup : (s.agents.map (·.1)).Nodup)
    (hids : ∀ e ∈ s.agents, e.2.id = e.1) :
    executeStep env s =
      some ({ s with
              agents := s.agents.map fun e =>
                (e.1, MogiNode.execute env (p.nodes.get ⟨k, hk⟩) e.2)
              currentState := { s.currentState with
                nodeIndex := k + 1
                isComplete := decide (p.nodes.length ≤ k + 1) } },
            !decide (p.nodes.length ≤ k + 1)) := by
  have hcomp : s.currentState.isComplete = false := by
    rw [hcs]
    simp [Nat.not_le.mpr hk]
  have hget : p.nodes.get? k = some (p.nodes.get ⟨k, hk⟩) := List.get?_eq_get hk
  have hga : getAgentStates s.agents s.currentState.activeAgents =
      some (s.agents.map (·.2)) := by
    rw [hcs]
    exact getAgentStates_keys s.agents hnodup
  have hfold : List.foldl setAgent s.agents
      ((s.agents.map (·.2)).map fun a => MogiNode.execute env (p.nodes.get ⟨k, hk⟩) a) =
      s.agents.map fun e => (e.1, MogiNode.execute env (p.nodes.get ⟨k, hk⟩) e.2) :=
    foldl_setAgent_map _ (fun a => execute_id env _ a) s.agents hnodup hids
  have hni : s.currentState.nodeIndex = k := by rw [hcs]
  have hact : s.currentState.activeAgents = s.agents.map (·.1) := by rw [hcs]
  have hpid : s.currentState.currentProcessId = some p.id := by rw [hcs]
  rw [hact] at hga
  simp only [executeStep, hcomp, Bool.false_eq_true, if_false, hpid, hfind, hni, hact, hget,
    hga, hfold]

/-- State characterization of a linear run: after `k` steps the cursor is `k`,
the completion flag is exactly `nodeCount ≤ k`, the agent map keeps its keys and
id coherence, and every agent has gained exactly `k` history entries. -/
theorem c3_state (env : Env) (sim0 : MogiSimulation) (p : LinearProc)
    (hok : ∀ n ag, (env.oracle n ag).isReplies = true)
    (hnodup : (sim0.agents.map (·.1)).Nodup)
    (hids : ∀ e ∈ sim0.agents, e.2.id = e.1)
    (hfresh : ∀ q ∈ sim0.processes, procId q ≠ p.id)
    (hN : 0 < p.nodes.length) :
    ∀ k, k ≤ p.nodes.length →
      (stepSimN env k (initializeProcess sim0 (Proc.linear p))).currentState =
        { currentProcessId := some p.id,
          activeAgents :=
            (stepSimN env k (initializeProcess sim0 (Proc.linear p))).agents.map (·.1),
          nodeIndex := k, isComplete := decide (p.nodes.length ≤ k) } ∧
      (stepSimN env k (initializeProcess sim0 (Proc.linear p))).agents.map (·.1) =
        sim0.agents.map (·.1) ∧
      findProc (stepSimN env k (initializeProcess sim0 (Proc.linear p))).processes
        (some p.id) = some (Proc.linear p) ∧
      (∀ e ∈ (stepSimN env k (initializeProcess sim0 (Proc.linear p))).agents, e.2.id = e.1) ∧
      List.Forall₂ (fun e e' : String × MogiAgentState =>
          e'.2.history.length = e.2.history.length + k)
        sim0.agents (stepSimN env k (initializeProcess sim0 (Proc.linear p))).agents := by
  intro k
  induction k with
  | zero =>
    intro _
    have hd : decide (p.nodes.length ≤ 0) = false :=
      decide_eq_false_iff_not.mpr (by omega)
    refine ⟨?_, rfl, ?_, hids, ?_⟩
    · simp [stepSimN, initializeProcess, procId, hd]
      exact List.ne_nil_of_length_pos hN
    · exact findProc_append_self (Proc.linear p) sim0.processes hfresh
    · exact List.forall₂_same.mpr fun x _ => by simp
  | succ k ih =>
    intro hk1
    have hk : k < p.nodes.length := hk1
    obtain ⟨hcs, hkeys, hfind, hids', hfa⟩ := ih (Nat.le_of_lt hk)
    have hnodup' : ((stepSimN env k (initializeProcess sim0 (Proc.linear p))).agents.map
        (·.1)).Nodup := by
      rw [hkeys]; exact hnodup
    have hstep := linear_step_lemma env p _ k hk hcs hfind hnodup' hids'
    have hS : stepSimN env (k + 1) (initializeProcess sim0 (Proc.linear p)) =
        { stepSimN env k (initializeProcess sim0 (Proc.linear p)) with
          agents := (stepSimN env k (initializeProcess sim0 (Proc.linear p))).agents.map
            fun e => (e.1, MogiNode.execute env (p.nodes.get ⟨k, hk⟩) e.2)
          currentState :=
            { (stepSimN env k (initializeProcess sim0 (Proc.linear p))).currentState with
              nodeIndex := k + 1
              isComplete := decide (p.nodes.length ≤ k + 1) } } := by
      rw [stepSimN_succ_right]
      simp only [stepSim, hstep]
    refine ⟨?_, ?_, ?_, ?_, ?_⟩
    · rw [hS, hcs]
      simp [List.map_map]
    · rw [hS]
      simp only [List.map_map]
      simpa using hkeys
    · rw [hS]
      exact hfind
    · rw [hS]
      intro e he
      simp only [List.mem_map] at he
      obtain ⟨x, hx, rfl⟩ := he
      simp [execute_id, hids' x hx]
    · rw [hS]
      simp only [List.forall₂_map_right_iff]
      refine hfa.imp fun a b hab => ?_
      show (MogiNode.execute env (p.nodes.get ⟨k, hk⟩) b.2).history.length =
        a.2.history.length + (k + 1)
      rw [execute_history_len env _ b.2 (hok _ _), hab]
      omega

/-- C3 (for a process with at least one node): initializing a linear process
and stepping it runs the cursor 0,1,…,N with the completion flag true exactly
when the cursor equals N; each step returns more-work until the cursor reaches
N (the step taking the cursor to N returns false, ending the run); and with
every capability call succeeding every agent gains exactly `k` history entries
after `k` steps — in particular exactly N entries for the full run. -/
theorem c3_linear_run (env : Env) (sim0 : MogiSimulation) (p : LinearProc)
    (hok : ∀ n ag, (env.oracle n ag).isReplies = true)
    (hnodup : (sim0.agents.map (·.1)).Nodup)
    (hids : ∀ e ∈ sim0.agents, e.2.id = e.1)
    (hfresh : ∀ q ∈ sim0.processes, procId q ≠ p.id)
    (hN : 0 < p.nodes.length) :
    ∀ k, k ≤ p.nodes.length →
      ((stepSimN env k (initializeProcess sim0 (Proc.linear p))).currentState.nodeIndex = k ∧
       ((stepSimN env k (initializeProcess sim0 (Proc.linear p))).currentState.isComplete = true ↔
          k = p.nodes.length) ∧
       List.Forall₂ (fun e e' : String × MogiAgentState =>
           e'.2.history.length = e.2.history.length + k)
         sim0.agents (stepSimN env k (initializeProcess sim0 (Proc.linear p))).agents) ∧
      (k < p.nodes.length →
        stepRetOf env (stepSimN env k (initializeProcess sim0 (Proc.linear p))) =
          some (!decide (p.nodes.length ≤ k + 1))) := by
  intro k hk
  obtain ⟨hcs, hkeys, hfind, hids', hfa⟩ :=
    c3_state env sim0 p hok hnodup hids hfresh hN k hk
  refine ⟨⟨?_, ?_, hfa⟩, ?_⟩
  · rw [hcs]
  · rw [hcs]
    simp only [decide_eq_true_eq]
    omega
  · intro hlt
    have hnodup' : ((stepSimN env k (initializeProcess sim0 (Proc.linear p))).agents.map
        (·.1)).Nodup := by
      rw [hkeys]; exact hnodup
    have hstep := linear_step_lemma env p _ k hlt hcs hfind hnodup' hids'
    rw [stepRetOf, hstep]
    rfl

/-- A one-agent base simulation for the C3 witness. -/
def simOneAgent : MogiSimulation := baseSim [("A", demoAgentA)]

/-- A two-node linear process for the C3 witness. -/
def demoLinear2 : LinearProc := ⟨"lp", [demoNode, demoNodeT0], 0⟩

/-- Witness for C3 at one agent, two nodes, after one step. -/
theorem c3_linear_run_witness :
    ((stepSimN demoEnv 1 (initializeProcess simOneAgent (Proc.linear demoLinear2))).currentState.nodeIndex = 1 ∧
     ((stepSimN demoEnv 1 (initializeProcess simOneAgent (Proc.linear demoLinear2))).currentState.isComplete = true ↔
        1 = demoLinear2.nodes.length) ∧
     List.Forall₂ (fun e e' : String × MogiAgentState =>
         e'.2.history.length = e.2.history.length + 1)
       simOneAgent.agents
       (stepSimN demoEnv 1 (initializeProcess simOneAgent (Proc.linear demoLinear2))).agents) ∧
    (1 < demoLinear2.nodes.length →
      stepRetOf demoEnv (stepSimN demoEnv 1 (initializeProcess simOneAgent (Proc.linear demoLinear2))) =
        some (!decide (demoLinear2.nodes.length ≤ 1 + 1))) :=
  c3_linear_run demoEnv simOneAgent demoLinear2 (fun _ _ => rfl) (by simp [simOneAgent, baseSim])
    (by intro e he; simp [simOneAgent, baseSim] at he; simp [he, demoAgentA])
    (by intro q hq; simp [simOneAgent, baseSim] at hq) (by decide) 1 (by decide)

/-- C3 counterexample: for a linear process with zero nodes the claim fails —
right after `initializeProcess` the shared cursor already equals the node count
while the completion flag is still false, and `executeStep` throws a TypeError
(modelled as `none`) instead of ever returning false. -/
theorem c3_empty_process_counterexample :
    executeStep demoEnv
      (initializeProcess (baseSim [("A", demoAgentA)]) (Proc.linear ⟨"lp", [], 0⟩)) = none ∧
    (initializeProcess (baseSim [("A", demoAgentA)])
      (Proc.linear ⟨"lp", [], 0⟩)).currentState.nodeIndex =
      (⟨"lp", [], 0⟩ : LinearProc).nodes.length ∧
    (initializeProcess (baseSim [("A", demoAgentA)])
      (Proc.linear ⟨"lp", [], 0⟩)).currentState.isComplete = false :=
  ⟨rfl, rfl, rfl⟩

/-- A successful node execution appends exactly its own node id to the agent's
history trail. -/
theorem execute_trail (env : Env) (node : MogiNode) (agent : MogiAgentState)
    (h : (env.oracle node agent).isReplies = true) :
    (MogiNode.execute env node agent).history.map (·.nodeId) =
      agent.history.map (·.nodeId) ++ [node.id] := by
  obtain ⟨ch, hch⟩ := execute_shape env node agent h
  rw [hch]
  simp

/-- The conditional process of the C1 scenario: a 1-node shared phase, a 2-node
true branch and a 1-node false branch. -/
def c1Proc (c : MogiAgentState → Bool) (n0 t0 t1 f0 : MogiNode) : CondProc :=
  ⟨"cp", c, ⟨"tb", [t0, t1], 0⟩, ⟨"fb", [f0], 0⟩, [n0], 0, []⟩

/-- The C1 scenario's initialized simulation: two fresh agents "A" and "B" with
the given attributes, bound to the conditional process. -/
def c1Start (c : MogiAgentState → Bool) (n0 t0 t1 f0 : MogiNode)
    (attrsA attrsB : AttrMap) : MogiSimulation :=
  initializeProcess
    (baseSim [("A", ⟨"A", attrsA, []⟩), ("B", ⟨"B", attrsB, []⟩)])
    (Proc.cond (c1Proc c n0 t0 t1 f0))

/-- C1: in the scenario with a 1-node shared phase, a 2-node true branch, a
1-node false branch and two fresh agents of which exactly one satisfies the
predicate when branches are chosen, driving `executeStep` returns true, true,
true and then false — the first false coming only once both agents' bound
branches are exhausted (both completion flags are then set) — and leaves agent
"A" with exactly the 3 history entries of the shared node and the two
true-branch nodes, and agent "B" with exactly the 2 entries of the shared node
and the false-branch node. -/
theorem c1_conditional_scenario (env : Env) (c : MogiAgentState → Bool)
    (n0 t0 t1 f0 : MogiNode) (attrsA attrsB : AttrMap)
    (hok : ∀ n ag, (env.oracle n ag).isReplies = true)
    (hca : (lookupAgent (stepSimN env 1 (c1Start c n0 t0 t1 f0 attrsA attrsB)).agents "A").map c
      = some true)
    (hcb : (lookupAgent (stepSimN env 1 (c1Start c n0 t0 t1 f0 attrsA attrsB)).agents "B").map c
      = some false) :
    stepRetOf env (c1Start c n0 t0 t1 f0 attrsA attrsB) = some true ∧
    stepRetOf env (stepSimN env 1 (c1Start c n0 t0 t1 f0 attrsA attrsB)) = some true ∧
    stepRetOf env (stepSimN env 2 (c1Start c n0 t0 t1 f0 attrsA attrsB)) = some true ∧
    stepRetOf env (stepSimN env 3 (c1Start c n0 t0 t1 f0 attrsA attrsB)) = some false ∧
    historyTrail (stepSimN env 4 (c1Start c n0 t0 t1 f0 attrsA attrsB)) "A" =
      some [n0.id, t0.id, t1.id] ∧
    historyTrail (stepSimN env 4 (c1Start c n0 t0 t1 f0 attrsA attrsB)) "B" =
      some [n0.id, f0.id] ∧
    boundCompleted (stepSimN env 4 (c1Start c n0 t0 t1 f0 attrsA attrsB)) "cp" "A" = some true ∧
    boundCompleted (stepSimN env 4 (c1Start c n0 t0 t1 f0 attrsA attrsB)) "cp" "B" = some true := by
  have hABf : (("A" : String) = "B") = False := eq_false (by decide)
  have hBAf : (("B" : String) = "A") = False := eq_false (by decide)
  have e1 : executeStep env (c1Start c n0 t0 t1 f0 attrsA attrsB) =
      some ({ c1Start c n0 t0 t1 f0 attrsA attrsB with
              agents := [("A", MogiNode.execute env n0 ⟨"A", attrsA, []⟩),
                         ("B", MogiNode.execute env n0 ⟨"B", attrsB, []⟩)]
              processes :=
                [Proc.cond ⟨"cp", c, ⟨"tb", [t0, t1], 0⟩, ⟨"fb", [f0], 0⟩, [n0], 1, []⟩] },
            true) := by
    simp [executeStep, c1Start, c1Proc, initializeProcess, baseSim, procId, findProc,
      List.find?, getAgentStates, lookupAgent, executeConditionalStep, condStepAgent,
      executeAgentStep, branchOf, setBranchProc, LinearProc.resetExecution, lookupBS, setBS,
      setAgent, setProcFirst, execute_id, hABf, hBAf]
  have hs1 : stepSimN env 1 (c1Start c n0 t0 t1 f0 attrsA attrsB) =
      { c1Start c n0 t0 t1 f0 attrsA attrsB with
        agents := [("A", MogiNode.execute env n0 ⟨"A", attrsA, []⟩),
                   ("B", MogiNode.execute env n0 ⟨"B", attrsB, []⟩)]
        processes :=
          [Proc.cond ⟨"cp", c, ⟨"tb", [t0, t1], 0⟩, ⟨"fb", [f0], 0⟩, [n0], 1, []⟩] } := by
    rw [show (1 : Nat) = 0 + 1 from rfl, stepSimN_succ_right]
    simp only [stepSimN, stepSim, e1]
  have hcA : c (MogiNode.execute env n0 ⟨"A", attrsA, []⟩) = true := by
    rw [hs1] at hca
    simpa [lookupAgent, hABf, hBAf] using hca
  have hcB : c (MogiNode.execute env n0 ⟨"B", attrsB, []⟩) = false := by
    rw [hs1] at hcb
    simpa [lookupAgent, hABf, hBAf] using hcb
  have e2 : executeStep env
      ({ c1Start c n0 t0 t1 f0 attrsA attrsB with
         agents := [("A", MogiNode.execute env n0 ⟨"A", attrsA, []⟩),
                    ("B", MogiNode.execute env n0 ⟨"B", attrsB, []⟩)]
         processes :=
           [Proc.cond ⟨"cp", c, ⟨"tb", [t0, t1], 0⟩, ⟨"fb", [f0], 0⟩, [n0], 1, []⟩] }) =
      some ({ c1Start c n0 t0 t1 f0 attrsA attrsB with
              agents := [("A", MogiNode.execute env t0 (MogiNode.execute env n0 ⟨"A", attrsA, []⟩)),
                         ("B", MogiNode.execute env f0 (MogiNode.execute env n0 ⟨"B", attrsB, []⟩))]
              processes :=
                [Proc.cond ⟨"cp", c, ⟨"tb", [t0, t1], 1⟩, ⟨"fb", [f0], 1⟩, [n0], 1,
                  [("A", ⟨BranchTag.onTrue, false⟩), ("B", ⟨BranchTag.onFalse, false⟩)]⟩] },
            true) := by
    simp [executeStep, c1Start, c1Proc, initializeProcess, baseSim, procId, findProc,
      List.find?, getAgentStates, lookupAgent, executeConditionalStep, condStepAgent,
      executeAgentStep, branchOf, setBranchProc, LinearProc.resetExecution, lookupBS, setBS,
      setAgent, setProcFirst, execute_id, hABf, hBAf, hcA, hcB]
  have hs2 : stepSimN env 2 (c1Start c n0 t0 t1 f0 attrsA attrsB) =
      { c1Start c n0 t0 t1 f0 attrsA attrsB with
        agents := [("A", MogiNode.execute env t0 (MogiNode.execute env n0 ⟨"A", attrsA, []⟩)),
                   ("B", MogiNode.execute env f0 (MogiNode.execute env n0 ⟨"B", attrsB, []⟩))]
        processes :=
          [Proc.cond ⟨"cp", c, ⟨"tb", [t0, t1], 1⟩, ⟨"fb", [f0], 1⟩, [n0], 1,
            [("A", ⟨BranchTag.onTrue, false⟩), ("B", ⟨BranchTag.onFalse, false⟩)]⟩] } := by
    rw [show (2 : Nat) = 1 + 1 from rfl, stepSimN_succ_right, hs1]
    simp only [stepSim, e2]
  have e3 : executeStep env
      ({ c1Start c n0 t0 t1 f0 attrsA attrsB with
         agents := [("A", MogiNode.execute env t0 (MogiNode.execute env n0 ⟨"A", attrsA, []⟩)),
                    ("B", MogiNode.execute env f0 (MogiNode.execute env n0 ⟨"B", attrsB, []⟩))]
         processes :=
           [Proc.cond ⟨"cp", c, ⟨"tb", [t0, t1], 1⟩, ⟨"fb", [f0], 1⟩, [n0], 1,
             [("A", ⟨BranchTag.onTrue, false⟩), ("B", ⟨BranchTag.onFalse, false⟩)]⟩] }) =
      some ({ c1Start c n0 t0 t1 f0 attrsA attrsB with
              agents := [("A", MogiNode.execute env t1 (MogiNode.execute env t0
                           (MogiNode.execute env n0 ⟨"A", attrsA, []⟩))),
                         ("B", MogiNode.execute env f0 (MogiNode.execute env n0 ⟨"B", attrsB, []⟩))]
              processes :=
                [Proc.cond ⟨"cp", c, ⟨"tb", [t0, t1], 2⟩, ⟨"fb", [f0], 1⟩, [n0], 1,
                  [("A", ⟨BranchTag.onTrue, false⟩), ("B", ⟨BranchTag.onFalse, true⟩)]⟩] },
            true) := by
    simp [executeStep, c1Start, c1Proc, initializeProcess, baseSim, procId, findProc,
      List.find?, getAgentStates, lookupAgent, executeConditionalStep, condStepAgent,
      executeAgentStep, branchOf, setBranchProc, LinearProc.resetExecution, lookupBS, setBS,
      setAgent, setProcFirst, execute_id, hABf, hBAf]
  have hs3 : stepSimN env 3 (c1Start c n0 t0 t1 f0 attrsA attrsB) =
      { c1Start c n0 t0 t1 f0 attrsA attrsB with
        agents := [("A", MogiNode.execute env t1 (MogiNode.execute env t0
                     (MogiNode.execute env n0 ⟨"A", attrsA, []⟩))),
                   ("B", MogiNode.execute env f0 (MogiNode.execute env n0 ⟨"B", attrsB, []⟩))]
        processes :=
          [Proc.cond ⟨"cp", c, ⟨"tb", [t0, t1], 2⟩, ⟨"fb", [f0], 1⟩, [n0], 1,
            [("A", ⟨BranchTag.onTrue, false⟩), ("B", ⟨BranchTag.onFalse, true⟩)]⟩] } := by
    rw [show (3 : Nat) = 2 + 1 from rfl, stepSimN_succ_right, hs2]
    simp only [stepSim, e3]
  have e4 : executeStep env
      ({ c1Start c n0 t0 t1 f0 attrsA attrsB with
         agents := [("A", MogiNode.execute env t1 (MogiNode.execute env t0
                      (MogiNode.execute env n0 ⟨"A", attrsA, []⟩))),
                    ("B", MogiNode.execute env f0 (MogiNode.execute env n0 ⟨"B", attrsB, []⟩))]
         processes :=
           [Proc.cond ⟨"cp", c, ⟨"tb", [t0, t1], 2⟩, ⟨"fb", [f0], 1⟩, [n0], 1,
             [("A", ⟨BranchTag.onTrue, false⟩), ("B", ⟨BranchTag.onFalse, true⟩)]⟩] }) =
      some ({ c1Start c n0 t0 t1 f0 attrsA attrsB with
              agents := [("A", MogiNode.execute env t1 (MogiNode.execute env t0
                           (MogiNode.execute env n0 ⟨"A", attrsA, []⟩))),
                         ("B", MogiNode.execute env f0 (MogiNode.execute env n0 ⟨"B", attrsB, []⟩))]
              processes :=
                [Proc.cond ⟨"cp", c, ⟨"tb", [t0, t1], 2⟩, ⟨"fb", [f0], 1⟩, [n0], 1,
                  [("A", ⟨BranchTag.onTrue, true⟩), ("B", ⟨BranchTag.onFalse, true⟩)]⟩] },
            false) := by
    simp [executeStep, c1Start, c1Proc, initializeProcess, baseSim, procId, findProc,
      List.find?, getAgentStates, lookupAgent, executeConditionalStep, condStepAgent,
      executeAgentStep, branchOf, setBranchProc, LinearProc.resetExecution, lookupBS, setBS,
      setAgent, setProcFirst, execute_id, hABf, hBAf]
  have hs4 : stepSimN env 4 (c1Start c n0 t0 t1 f0 attrsA attrsB) =
      { c1Start c n0 t0 t1 f0 attrsA attrsB with
        agents := [("A", MogiNode.execute env t1 (MogiNode.execute env t0
                     (MogiNode.execute env n0 ⟨"A", attrsA, []⟩))),
                   ("B", MogiNode.execute env f0 (MogiNode.execute env n0 ⟨"B", attrsB, []⟩))]
        processes :=
          [Proc.cond ⟨"cp", c, ⟨"tb", [t0, t1], 2⟩, ⟨"fb", [f0], 1⟩, [n0], 1,
            [("A", ⟨BranchTag.onTrue, true⟩), ("B", ⟨BranchTag.onFalse, true⟩)]⟩] } := by
    rw [show (4 : Nat) = 3 + 1 from rfl, stepSimN_succ_right, hs3]
    simp only [stepSim, e4]
  refine ⟨?_, ?_, ?_, ?_, ?_, ?_, ?_, ?_⟩
  · rw [stepRetOf, e1]
    rfl
  · rw [stepRetOf, hs1, e2]
    rfl
  · rw [stepRetOf, hs2, e3]
    rfl
  · rw [stepRetOf, hs3, e4]
    rfl
  · rw [hs4]
    simp [historyTrail, lookupAgent, hABf, hBAf, execute_trail, hok]
  · rw [hs4]
    simp [historyTrail, lookupAgent, hABf, hBAf, execute_trail, hok]
  · rw [hs4]
    rfl
  · rw [hs4]
    rfl

/-- Witness for C1 at the concrete scenario: predicate height ∈ [150, 200],
agent "A" with height 160 (true branch), agent "B" with height 100 (false
branch). -/
theorem c1_conditional_scenario_witness :
    stepRetOf demoEnv (c1Start condHeight demoNode demoNodeT0 demoNodeT1 demoNodeF0
      [("height", Val.vInt 160)] [("height", Val.vInt 100)]) = some true ∧
    stepRetOf demoEnv (stepSimN demoEnv 1 (c1Start condHeight demoNode demoNodeT0 demoNodeT1
      demoNodeF0 [("height", Val.vInt 160)] [("height", Val.vInt 100)])) = some true ∧
    stepRetOf demoEnv (stepSimN demoEnv 2 (c1Start condHeight demoNode demoNodeT0 demoNodeT1
      demoNodeF0 [("height", Val.vInt 160)] [("height", Val.vInt 100)])) = some true ∧
    stepRetOf demoEnv (stepSimN demoEnv 3 (c1Start condHeight demoNode demoNodeT0 demoNodeT1
      demoNodeF0 [("height", Val.vInt 160)] [("height", Val.vInt 100)])) = some false ∧
    historyTrail (stepSimN demoEnv 4 (c1Start condHeight demoNode demoNodeT0 demoNodeT1
      demoNodeF0 [("height", Val.vInt 160)] [("height", Val.vInt 100)])) "A" =
      some [demoNode.id, demoNodeT0.id, demoNodeT1.id] ∧
    historyTrail (stepSimN demoEnv 4 (c1Start condHeight demoNode demoNodeT0 demoNodeT1
      demoNodeF0 [("height", Val.vInt 160)] [("height", Val.vInt 100)])) "B" =
      some [demoNode.id, demoNodeF0.id] ∧
    boundCompleted (stepSimN demoEnv 4 (c1Start condHeight demoNode demoNodeT0 demoNodeT1
      demoNodeF0 [("height", Val.vInt 160)] [("height", Val.vInt 100)])) "cp" "A" = some true ∧
    boundCompleted (stepSimN demoEnv 4 (c1Start condHeight demoNode demoNodeT0 demoNodeT1
      demoNodeF0 [("height", Val.vInt 160)] [("height", Val.vInt 100)])) "cp" "B" = some true :=
  c1_conditional_scenario demoEnv condHeight demoNode demoNodeT0 demoNodeT1 demoNodeF0
    [("height", Val.vInt 160)] [("height", Val.vInt 100)] (fun _ _ => rfl)
    (by decide) (by decide)
